import Mathlib

/-!
Shallow embedding of the Ordered Image Collection Manager of
`src/components/tools/pdf/imgtopdf.tsx` and the page-selection validation of
`src/components/tools/pdf/pdfsplit.tsx`, together with proofs of the
specification's claims about them.

Browser capabilities are modelled as parameters: the random id source of
`generateId` as a stream `rand : Nat -> String`, `URL.createObjectURL` as
`mkUrl : File -> String`, image decoding as a `decode` function, and the
PDF library's page geometry as `pageSize`.
-/

namespace SharpToolKit

/-- A browser `File`: only the fields the component reads (`type`, and a name
so that distinct files can be told apart). -/
structure File where
  name : String
  type : String
deriving DecidableEq, Repr

/-- `interface ImageData { file: File; url: string; id: string }`. -/
structure ImageData where
  file : File
  url : String
  id : String
deriving DecidableEq, Repr

/-- `interface PageSettings { orientation; margin; quality }`.  Numeric fields
are rationals (the source holds JS numbers inside the bounded UI ranges). -/
structure PageSettings where
  orientation : Bool  -- true = portrait, false = landscape
  margin : ℚ
  quality : ℚ
deriving DecidableEq, Repr

/-- The three notification severities of the `status` state. -/
inductive StatusType where
  | success
  | error
  | info
deriving DecidableEq, Repr

/-- One notification: `{ message, type }`. -/
structure Status where
  message : String
  type : StatusType
deriving DecidableEq, Repr

/-- The component state touched by the collection operations.  `nextRand` is
the read position in the random stream backing `generateId`; `createdIds` is a
ghost history of every id ever assigned (it changes no behaviour and exists
only to state lifetime uniqueness). -/
structure AppState where
  selectedImages : List ImageData
  status : Option Status
  loading : Bool
  draggedImage : Option String
  pageSettings : PageSettings
  nextRand : Nat
  createdIds : List String
deriving DecidableEq, Repr

/-- `useState` initial values of the component. -/
def initState : AppState :=
  { selectedImages := []
    status := none
    loading := false
    draggedImage := none
    pageSettings := { orientation := true, margin := 10, quality := 100 }
    nextRand := 0
    createdIds := [] }

/-- The MIME allow-list of `handleFiles`. -/
def acceptedTypes : List String :=
  ["image/jpeg", "image/png", "image/webp", "image/gif"]

/-- `handleFiles`: filter to the MIME allow-list, reject an all-invalid batch,
reject a batch that would push the collection past 50 entries, otherwise append
one new entry per valid file (each consuming one `generateId` draw) and report
the count added. -/
def handleFiles (rand : Nat → String) (mkUrl : File → String)
    (files : Option (List File)) (s : AppState) : AppState :=
  match files with
  | none => s
  | some fs =>
    let validImages := fs.filter (fun f => acceptedTypes.contains f.type)
    if validImages.length = 0 then
      { s with status := some ⟨"Please upload valid images (JPEG, PNG, WebP, GIF)", .error⟩ }
    else if validImages.length + s.selectedImages.length > 50 then
      { s with status := some ⟨"Maximum 50 images allowed", .error⟩ }
    else
      let imageData : List ImageData :=
        validImages.mapIdx (fun k f => ⟨f, mkUrl f, rand (s.nextRand + k)⟩)
      { s with
          selectedImages := s.selectedImages ++ imageData
          status := some ⟨toString imageData.length ++ " image(s) added", .success⟩
          nextRand := s.nextRand + validImages.length
          createdIds := s.createdIds ++ imageData.map (·.id) }

/-- `handleDragStart`: records the dragged entry's id. -/
def handleDragStart (imageId : String) (s : AppState) : AppState :=
  { s with draggedImage := some imageId }

/-- `handleDropImage`: with `draggedImage = some src`, `src ≠ target` and both
ids present, splices the source entry out at its index and splices it back in
at the target's original index; otherwise leaves the collection as it is.
JS `findIndex` / `-1` is rendered as `List.findIdx?` / `none`. -/
def handleDropImage (targetImageId : String) (s : AppState) : AppState :=
  match s.draggedImage with
  | none => s
  | some src =>
    if src = targetImageId then s
    else
      let images := s.selectedImages
      let newImages :=
        match images.findIdx? (fun img => img.id = src),
              images.findIdx? (fun img => img.id = targetImageId) with
        | some draggedIndex, some targetIndex =>
          match images[draggedIndex]? with
          | some draggedItem =>
            (images.eraseIdx draggedIndex).insertIdx targetIndex draggedItem
          | none => images
        | _, _ => images
      { s with
          selectedImages := newImages
          draggedImage := none
          status := some ⟨"Image order updated", .success⟩ }

/-- `removeImage`: filters the entry with the given id out; when the result is
empty, also sets the "All images removed" notification.  The second component
lists the preview URLs the operation revokes — the source revokes none. -/
def removeImage (id : String) (s : AppState) : AppState × List String :=
  let newImages := s.selectedImages.filter (fun img => ¬ img.id = id)
  ({ s with
      selectedImages := newImages
      status := if newImages.length = 0
        then some ⟨"All images removed", .success⟩ else s.status },
   [])

/-- `clearAll`: empties the collection.  The second component lists the preview
URLs revoked — the source revokes none. -/
def clearAll (s : AppState) : AppState × List String :=
  ({ s with
      selectedImages := []
      status := some ⟨"All images cleared", .success⟩ },
   [])

/-- Swap the entries at two indices, as the destructuring assignment
`[images[index], images[newIndex]] = [images[newIndex], images[index]]` does;
identity when an index is out of range (the caller's guard keeps both in
range). -/
def swapIdx (l : List ImageData) (i j : Nat) : List ImageData :=
  match l[i]?, l[j]? with
  | some a, some b => (l.set i b).set j a
  | _, _ => l

/-- `moveImage`: no-op at the boundary, otherwise swaps the entry at `index`
with its neighbour in the given direction (`up = true`). -/
def moveImage (index : Nat) (up : Bool) (s : AppState) : AppState :=
  if (up = true ∧ index = 0) ∨ (up = false ∧ index = s.selectedImages.length - 1) then
    s
  else
    let newIndex := if up then index - 1 else index + 1
    { s with selectedImages := swapIdx s.selectedImages index newIndex }

/-- The two encodings `generatePDF` selects between. -/
inductive ImgFormat where
  | PNG
  | JPEG
deriving DecidableEq, Repr

/-- One `pdf.addImage(...)` call: encoding, position and size in mm. -/
structure Placed where
  format : ImgFormat
  x : ℚ
  y : ℚ
  w : ℚ
  h : ℚ
deriving DecidableEq, Repr

/-- The assembled document: orientation and the pages in order, each page the
list of images placed on it.  A fresh `jsPDF` document has one empty page. -/
structure Document where
  orientation : Bool
  pages : List (List Placed)
deriving DecidableEq, Repr

/-- `pdf.addPage()`: appends an empty page. -/
def Document.addPage (doc : Document) : Document :=
  { doc with pages := doc.pages ++ [[]] }

/-- `pdf.addImage(...)`: places an image on the current (last) page. -/
def Document.addImage (p : Placed) (doc : Document) : Document :=
  { doc with pages := doc.pages.dropLast ++ [doc.pages.getLastD [] ++ [p]] }

/-- The per-entry geometry and encoding computation of the loop body of
`generatePDF`, given the page size, the decoded pixel size `wh` and the
entry's MIME type. -/
def placeEntry (settings : PageSettings) (pdfWidth pdfHeight : ℚ)
    (wh : Nat × Nat) (mime : String) : Placed :=
  let width : ℚ := wh.1
  let height : ℚ := wh.2
  let availableWidth := pdfWidth - settings.margin * 2
  let availableHeight := pdfHeight - settings.margin * 2
  let ratio := min (availableWidth / width) (availableHeight / height)
  let width := width * ratio
  let height := height * ratio
  let x := (pdfWidth - width) / 2
  let y := (pdfHeight - height) / 2
  { format := if mime = "image/png" then .PNG else .JPEG
    x := x, y := y, w := width, h := height }

/-- The `for` loop of `generatePDF`: `if (i > 0) pdf.addPage()`, decode the
entry (a decode or placement failure makes the whole `try` block abort), place
it.  `decode` is the browser's image-decoding capability. -/
def buildPages (settings : PageSettings) (pdfWidth pdfHeight : ℚ)
    (decode : ImageData → Except Unit (Nat × Nat)) :
    List ImageData → Nat → Document → Except Unit Document
  | [], _, doc => .ok doc
  | img :: rest, i, doc =>
    let doc := if i > 0 then doc.addPage else doc
    match decode img with
    | .error e => .error e
    | .ok wh =>
      buildPages settings pdfWidth pdfHeight decode rest (i + 1)
        (doc.addImage (placeEntry settings pdfWidth pdfHeight wh img.file.type))

/-- A successful `pdf.save(...)`: the document plus the file name it is saved
under. -/
structure SavedDoc where
  doc : Document
  filename : String
deriving DecidableEq, Repr

/-- `generatePDF`: error out on an empty collection; otherwise build one page
per entry and save under a timestamp-derived name.  `pageSize` is the PDF
library's `pageSize.getWidth/getHeight` for the chosen orientation, `now` the
current timestamp.  Returns the post state and the saved document, if any. -/
def generatePDF (decode : ImageData → Except Unit (Nat × Nat))
    (pageSize : Bool → ℚ × ℚ) (now : Nat) (s : AppState) :
    AppState × Option SavedDoc :=
  if s.selectedImages.length = 0 then
    ({ s with status := some ⟨"No images selected", .error⟩ }, none)
  else
    let pdfWidth := (pageSize s.pageSettings.orientation).1
    let pdfHeight := (pageSize s.pageSettings.orientation).2
    let doc0 : Document := { orientation := s.pageSettings.orientation, pages := [[]] }
    match buildPages s.pageSettings pdfWidth pdfHeight decode s.selectedImages 0 doc0 with
    | .error _ =>
      ({ s with status := some ⟨"Error generating PDF", .error⟩, loading := false }, none)
    | .ok doc =>
      ({ s with
          status := some ⟨"PDF generated with " ++ toString s.selectedImages.length
            ++ " image(s)", .success⟩
          loading := false },
       some ⟨doc, "images-" ++ toString now ++ ".pdf"⟩)

/-- The user-triggered operations that touch the ordered collection. -/
inductive Event where
  | intake (files : Option (List File))
  | dragStart (imageId : String)
  | dropImage (targetImageId : String)
  | move (index : Nat) (up : Bool)
  | remove (id : String)
  | clear
deriving DecidableEq, Repr

/-- Dispatch one event to its handler. -/
def stepEvent (rand : Nat → String) (mkUrl : File → String) :
    Event → AppState → AppState
  | .intake files, s => handleFiles rand mkUrl files s
  | .dragStart imageId, s => handleDragStart imageId s
  | .dropImage targetImageId, s => handleDropImage targetImageId s
  | .move index up, s => moveImage index up s
  | .remove id, s => (removeImage id s).1
  | .clear, s => (clearAll s).1

/-- Run a sequence of operations from a state. -/
def runEvents (rand : Nat → String) (mkUrl : File → String)
    (evs : List Event) (s : AppState) : AppState :=
  evs.foldl (fun s e => stepEvent rand mkUrl e s) s

/-! ### Page-selection validation of `pdfsplit.tsx`

`handleSplit` rejects an all-whitespace page string, then tests
`pages.replace(/\s/g, '')` against `/^(\d+(-\d+)?)(,\s*\d+(-\d+)?)*$/`.
With every whitespace character already removed, the `\s*` inside the regex
is vacuous, so the regex is the language
`digits+ ('-' digits+)? (',' digits+ ('-' digits+)?)*`, rendered here as the
deterministic automaton `regexStep`/`regexAccepts`. -/

/-- States of the automaton for `^(\d+(-\d+)?)(,\d+(-\d+)?)*$`:
`s0` before the first digit of a page, `s1` inside the page's first number,
`s2` right after `-`, `s3` inside the second number, `dead` after a
mismatch.  `s1` and `s3` are the accepting states. -/
inductive RState where
  | s0
  | s1
  | s2
  | s3
  | dead
deriving DecidableEq, Repr

/-- One character step of the page-selection automaton. -/
def regexStep : RState → Char → RState
  | .s0, c => if c.isDigit then .s1 else .dead
  | .s1, c => if c.isDigit then .s1 else if c = '-' then .s2 else if c = ',' then .s0 else .dead
  | .s2, c => if c.isDigit then .s3 else .dead
  | .s3, c => if c.isDigit then .s3 else if c = ',' then .s0 else .dead
  | .dead, _ => .dead

/-- Run the automaton from a state over a character list. -/
def regexRun (st : RState) (cs : List Char) : RState :=
  cs.foldl regexStep st

/-- `pageRegex.test`: the whole string is consumed ending in an accepting
state. -/
def regexAccepts (cs : List Char) : Bool :=
  regexRun .s0 cs = .s1 ∨ regexRun .s0 cs = .s3

/-- `pages.replace(/\s/g, '')`: drop every whitespace character. -/
def stripWs (cs : List Char) : List Char :=
  cs.filter (fun c => ¬ c.isWhitespace)

/-- `pages.trim()`: drop leading and trailing whitespace. -/
def trimWs (cs : List Char) : List Char :=
  ((cs.dropWhile Char.isWhitespace).reverse.dropWhile Char.isWhitespace).reverse

/-- The validation errors `handleSplit` can emit before attempting a request
(file-selection aside, which is independent of the page string). -/
inductive PagesValError where
  | emptyPages
  | badFormat
deriving DecidableEq, Repr

/-- The page-string validation of `handleSplit`: empty-after-trim check, then
the regex test on the whitespace-stripped string.  `none` means the string is
accepted and the request proceeds. -/
def validatePages (pages : List Char) : Option PagesValError :=
  if trimWs pages = [] then some .emptyPages
  else if regexAccepts (stripWs pages) then none
  else some .badFormat

/-- `NUMBER`: a non-empty string of decimal digits (the spec's terminal). -/
def IsNumber (cs : List Char) : Prop :=
  cs ≠ [] ∧ ∀ c ∈ cs, c.isDigit

/-- `PAGE := NUMBER ('-' NUMBER)?` of the spec grammar. -/
inductive IsPage : List Char → Prop where
  | num {a : List Char} : IsNumber a → IsPage a
  | range {a b : List Char} : IsNumber a → IsNumber b → IsPage (a ++ '-' :: b)

/-- `PAGESET := PAGE (',' PAGE)*` of the spec grammar (built left to right). -/
inductive IsPageSet : List Char → Prop where
  | one {p : List Char} : IsPage p → IsPageSet p
  | more {r p : List Char} : IsPageSet r → IsPage p → IsPageSet (r ++ ',' :: p)

/-! ### Concrete sample data used by witnesses and counterexamples -/

/-- A PNG sample file. -/
def fileA : File := ⟨"a.png", "image/png"⟩

/-- A JPEG sample file. -/
def fileB : File := ⟨"b.jpg", "image/jpeg"⟩

/-- A GIF sample file. -/
def fileC : File := ⟨"c.gif", "image/gif"⟩

/-- A sample entry built from `fileA`. -/
def imgA : ImageData := ⟨fileA, "blob:a", "ida"⟩

/-- A sample entry built from `fileB`. -/
def imgB : ImageData := ⟨fileB, "blob:b", "idb"⟩

/-- A sample entry built from `fileC`. -/
def imgC : ImageData := ⟨fileC, "blob:c", "idc"⟩

/-- A state holding the single entry `imgA`. -/
def stOne : AppState := { initState with selectedImages := [imgA] }

/-- A state holding the two entries `imgA, imgB`. -/
def stTwo : AppState := { initState with selectedImages := [imgA, imgB] }

/-- A sample url allocator. -/
def mkUrl0 : File → String := fun f => "blob:" ++ f.name

/-- A sample decoded-dimension assignment. -/
def dims0 : ImageData → Nat × Nat := fun _ => (100, 200)

/-- A4 page geometry in mm per orientation, as the PDF library reports it. -/
def pageSize0 : Bool → ℚ × ℚ := fun o => if o then (210, 297) else (297, 210)

/-! ### Claims -/

/-- Claim C7: assembly on an empty collection emits the no-input error
notification and constructs nothing — no document is produced or saved. -/
theorem c7_empty_collection_no_input (decode : ImageData → Except Unit (Nat × Nat))
    (pageSize : Bool → ℚ × ℚ) (now : Nat) (s : AppState)
    (hempty : s.selectedImages = []) :
    generatePDF decode pageSize now s
      = ({ s with status := some ⟨"No images selected", .error⟩ }, none) := by
  simp [generatePDF, hempty]

/-- Witness for C7 at the initial state. -/
theorem c7_empty_collection_no_input_witness :
    initState.selectedImages = [] ∧
      generatePDF (fun _ => .ok (1, 1)) pageSize0 0 initState
        = ({ initState with status := some ⟨"No images selected", .error⟩ }, none) :=
  ⟨rfl, c7_empty_collection_no_input (fun _ => .ok (1, 1)) pageSize0 0 initState rfl⟩

/-- Claim C10: assembly never mutates the collection or the page settings,
on the empty-input path, the failure path and the success path alike. -/
theorem c10_assembly_frame (decode : ImageData → Except Unit (Nat × Nat))
    (pageSize : Bool → ℚ × ℚ) (now : Nat) (s : AppState) :
    (generatePDF decode pageSize now s).1.selectedImages = s.selectedImages
      ∧ (generatePDF decode pageSize now s).1.pageSettings = s.pageSettings := by
  unfold generatePDF
  split
  · exact ⟨rfl, rfl⟩
  · dsimp only
    split <;> exact ⟨rfl, rfl⟩

/-- `placeEntry` reads only the margin of the settings, so a quality change
leaves it untouched. -/
theorem placeEntry_quality (p : PageSettings) (q : ℚ) (pw ph : ℚ)
    (wh : Nat × Nat) (mime : String) :
    placeEntry { p with quality := q } pw ph wh mime = placeEntry p pw ph wh mime := rfl

/-- `buildPages` is unaffected by a quality change in the settings. -/
theorem buildPages_quality (p : PageSettings) (q : ℚ) (pw ph : ℚ)
    (decode : ImageData → Except Unit (Nat × Nat)) :
    ∀ (entries : List ImageData) (i : Nat) (doc : Document),
      buildPages { p with quality := q } pw ph decode entries i doc
        = buildPages p pw ph decode entries i doc
  | [], _, _ => rfl
  | img :: rest, i, doc => by
    unfold buildPages
    cases decode img with
    | error e => rfl
    | ok wh =>
      simpa [placeEntry_quality] using
        buildPages_quality p q pw ph decode rest (i + 1) _

/-- Claim C8: the quality setting does not influence the assembled document —
two runs whose settings differ only in quality save identical documents. -/
theorem c8_quality_noninterference (decode : ImageData → Except Unit (Nat × Nat))
    (pageSize : Bool → ℚ × ℚ) (now : Nat) (s : AppState) (q : ℚ) :
    (generatePDF decode pageSize now
        { s with pageSettings := { s.pageSettings with quality := q } }).2
      = (generatePDF decode pageSize now s).2 := by
  unfold generatePDF
  simp only [AppState.selectedImages]
  split
  · rfl
  · simp only [AppState.pageSettings, PageSettings.orientation, buildPages_quality]
    generalize buildPages s.pageSettings (pageSize s.pageSettings.orientation).1
      (pageSize s.pageSettings.orientation).2 decode s.selectedImages 0
      ({ orientation := s.pageSettings.orientation, pages := [[]] } : Document) = r
    cases r <;> rfl

/-- Claim C2 is a code bug: `removeImage` and `clearAll` never call
`URL.revokeObjectURL`, so removing the only entry of a collection releases
zero preview resources (the claim demands one) and clearing a two-entry
collection releases zero (the claim demands two). -/
theorem c2_no_preview_release :
    (removeImage "ida" stOne).2.length = 0
      ∧ (removeImage "ida" stOne).1.selectedImages = []
      ∧ (clearAll stTwo).2.length = 0
      ∧ stTwo.selectedImages.length = 2
      ∧ (clearAll stTwo).1.selectedImages = [] := by
  refine ⟨rfl, ?_, rfl, rfl, rfl⟩
  decide

/-- Mapping an index-aware entry constructor over a batch and projecting the
file back yields the batch itself. -/
theorem mapIdx_map_file (g : Nat → File → ImageData) (hg : ∀ k f, (g k f).file = f) :
    ∀ l : List File, (l.mapIdx g).map (·.file) = l := by
  intro l
  induction l generalizing g with
  | nil => rfl
  | cons a t ih =>
    rw [List.mapIdx_cons, List.map_cons, hg,
      ih (fun i => g (i + 1)) (fun k f => hg (k + 1) f)]

/-- Claim C5: a batch whose valid subset is non-empty and fits under the
50-entry cap is appended — the prior entries stay as a prefix, the new
entries carry exactly the valid files in their original order, and a success
notification reports the count added. -/
theorem c5_intake_appends (rand : Nat → String) (mkUrl : File → String)
    (fs : List File) (s : AppState)
    (hne : fs.filter (fun f => acceptedTypes.contains f.type) ≠ [])
    (hcap : (fs.filter (fun f => acceptedTypes.contains f.type)).length
        + s.selectedImages.length ≤ 50) :
    ∃ newEntries : List ImageData,
      (handleFiles rand mkUrl (some fs) s).selectedImages
          = s.selectedImages ++ newEntries
      ∧ newEntries.map (·.file) = fs.filter (fun f => acceptedTypes.contains f.type)
      ∧ (handleFiles rand mkUrl (some fs) s).status
          = some ⟨toString (fs.filter (fun f => acceptedTypes.contains f.type)).length
              ++ " image(s) added", .success⟩ := by
  have h0 : ¬ (fs.filter (fun f => acceptedTypes.contains f.type)).length = 0 :=
    fun h => hne (List.length_eq_zero.mp h)
  have hc : ¬ (fs.filter (fun f => acceptedTypes.contains f.type)).length
      + s.selectedImages.length > 50 := Nat.not_lt.mpr hcap
  simp only [handleFiles, if_neg h0, if_neg hc]
  refine ⟨_, rfl, mapIdx_map_file _ (fun _ _ => rfl) _, ?_⟩
  simp [List.length_mapIdx]

/-- Witness for C5: adding one PNG file to the empty collection. -/
theorem c5_intake_appends_witness :
    ∃ newEntries : List ImageData,
      (handleFiles (fun n => toString n) mkUrl0 (some [fileA]) initState).selectedImages
          = initState.selectedImages ++ newEntries
      ∧ newEntries.map (·.file)
          = [fileA].filter (fun f => acceptedTypes.contains f.type)
      ∧ (handleFiles (fun n => toString n) mkUrl0 (some [fileA]) initState).status
          = some ⟨toString ([fileA].filter
                (fun f => acceptedTypes.contains f.type)).length
              ++ " image(s) added", .success⟩ :=
  c5_intake_appends (fun n => toString n) mkUrl0 [fileA] initState
    (by decide) (by decide)

/-- Claim C6: intake leaves the collection unchanged while emitting an error
notification exactly when no candidate passes the MIME filter or the cap
would be exceeded. -/
theorem c6_rejection_iff (rand : Nat → String) (mkUrl : File → String)
    (fs : List File) (s : AppState) :
    ((handleFiles rand mkUrl (some fs) s).selectedImages = s.selectedImages
        ∧ ∃ m, (handleFiles rand mkUrl (some fs) s).status = some ⟨m, .error⟩)
      ↔ ((fs.filter (fun f => acceptedTypes.contains f.type)).length = 0
          ∨ s.selectedImages.length
              + (fs.filter (fun f => acceptedTypes.contains f.type)).length > 50) := by
  by_cases h0 : (fs.filter (fun f => acceptedTypes.contains f.type)).length = 0
  · simp only [handleFiles, if_pos h0]
    exact ⟨fun _ => Or.inl h0, fun _ => ⟨by trivial, _, rfl⟩⟩
  · by_cases hcap : (fs.filter (fun f => acceptedTypes.contains f.type)).length
        + s.selectedImages.length > 50
    · simp only [handleFiles, if_neg h0, if_pos hcap]
      exact ⟨fun _ => Or.inr (by omega), fun _ => ⟨by trivial, _, rfl⟩⟩
    · simp only [handleFiles, if_neg h0, if_neg hcap]
      constructor
      · rintro ⟨-, m, hst⟩
        cases hst
      · rintro (h | h)
        · exact absurd h h0
        · exact absurd (by omega : (fs.filter
            (fun f => acceptedTypes.contains f.type)).length
              + s.selectedImages.length > 50) hcap

/-- From the second iteration on (`i ≥ 1`), every entry opens a fresh page
holding exactly its own placement, appended in entry order. -/
theorem buildPages_ok_of_pos (settings : PageSettings) (pw ph : ℚ)
    (dims : ImageData → Nat × Nat) :
    ∀ (entries : List ImageData) (i : Nat) (doc : Document), 0 < i →
      buildPages settings pw ph (fun img => .ok (dims img)) entries i doc
        = .ok { orientation := doc.orientation,
                pages := doc.pages ++ entries.map
                  (fun img => [placeEntry settings pw ph (dims img) img.file.type]) }
  | [], i, doc, _ => by simp [buildPages]
  | img :: rest, i, doc, hi => by
    have hstep := buildPages_ok_of_pos settings pw ph dims rest (i + 1)
      (doc.addPage.addImage (placeEntry settings pw ph (dims img) img.file.type))
      (Nat.succ_pos i)
    simp only [buildPages, if_pos hi]
    rw [hstep]
    simp [Document.addPage, Document.addImage]

/-- Starting the loop at `i = 0` on a non-empty collection and the fresh
single-page document yields exactly one page per entry, in order. -/
theorem buildPages_from_zero (settings : PageSettings) (pw ph : ℚ)
    (dims : ImageData → Nat × Nat) (ori : Bool)
    (entries : List ImageData) (hne : entries ≠ []) :
    buildPages settings pw ph (fun img => .ok (dims img)) entries 0
        { orientation := ori, pages := [[]] }
      = .ok { orientation := ori,
              pages := entries.map
                (fun img => [placeEntry settings pw ph (dims img) img.file.type]) } := by
  obtain ⟨e, t, rfl⟩ := List.exists_cons_of_ne_nil hne
  simp only [buildPages, if_neg (by omega : ¬ (0 : Nat) > 0)]
  rw [buildPages_ok_of_pos settings pw ph dims t 1 _ Nat.one_pos]
  simp [Document.addImage]

/-- Claim C1: assembling a non-empty collection yields one page per entry in
collection order; each image is scaled by
`ratio = min((W - 2m)/w, (H - 2m)/h)`, placed at
`((W - ratio·w)/2, (H - ratio·h)/2)` with size `(ratio·w, ratio·h)`, and is
encoded as PNG exactly when its source type is `image/png`, else JPEG. -/
theorem c1_assembly_pages (dims : ImageData → Nat × Nat) (pageSize : Bool → ℚ × ℚ)
    (now : Nat) (s : AppState) (hne : s.selectedImages ≠ []) :
    ∃ saved : SavedDoc,
      (generatePDF (fun img => .ok (dims img)) pageSize now s).2 = some saved
      ∧ saved.doc.pages.length = s.selectedImages.length
      ∧ ∀ (i : Nat) (hi : i < s.selectedImages.length),
          let img := s.selectedImages.get ⟨i, hi⟩
          let wq : ℚ := (dims img).1
          let hq : ℚ := (dims img).2
          let pw := (pageSize s.pageSettings.orientation).1
          let ph := (pageSize s.pageSettings.orientation).2
          let m := s.pageSettings.margin
          let ratio := min ((pw - 2 * m) / wq) ((ph - 2 * m) / hq)
          saved.doc.pages[i]? =
            some [{ format := if img.file.type = "image/png"
                      then ImgFormat.PNG else ImgFormat.JPEG
                    x := (pw - ratio * wq) / 2
                    y := (ph - ratio * hq) / 2
                    w := ratio * wq
                    h := ratio * hq }] := by
  have hlen : ¬ s.selectedImages.length = 0 := fun h => hne (List.length_eq_zero.mp h)
  simp only [generatePDF, if_neg hlen]
  rw [buildPages_from_zero _ _ _ dims _ _ hne]
  refine ⟨_, rfl, by simp, ?_⟩
  intro i hi
  simp only [List.getElem?_map, List.getElem?_eq_getElem hi, Option.map_some']
  simp only [placeEntry, mul_comm, List.get_eq_getElem]

/-- Witness for C1: the single-PNG collection `stOne` on portrait A4. -/
theorem c1_assembly_pages_witness :
    stOne.selectedImages ≠ [] ∧
    ∃ saved : SavedDoc,
      (generatePDF (fun img => .ok (dims0 img)) pageSize0 0 stOne).2 = some saved
      ∧ saved.doc.pages.length = stOne.selectedImages.length
      ∧ ∀ (i : Nat) (hi : i < stOne.selectedImages.length),
          let img := stOne.selectedImages.get ⟨i, hi⟩
          let wq : ℚ := (dims0 img).1
          let hq : ℚ := (dims0 img).2
          let pw := (pageSize0 stOne.pageSettings.orientation).1
          let ph := (pageSize0 stOne.pageSettings.orientation).2
          let m := stOne.pageSettings.margin
          let ratio := min ((pw - 2 * m) / wq) ((ph - 2 * m) / hq)
          saved.doc.pages[i]? =
            some [{ format := if img.file.type = "image/png"
                      then ImgFormat.PNG else ImgFormat.JPEG
                    x := (pw - ratio * wq) / 2
                    y := (ph - ratio * hq) / 2
                    w := ratio * wq
                    h := ratio * hq }] :=
  ⟨by decide, c1_assembly_pages dims0 pageSize0 0 stOne (by decide)⟩

section ListLemmas

variable {α : Type*}

/-- Inserting at a position within bounds is a permutation of consing. -/
theorem insertIdx_perm_cons (a : α) :
    ∀ (l : List α) (n : Nat), n ≤ l.length → (l.insertIdx n a).Perm (a :: l)
  | l, 0, _ => by simp [List.insertIdx_zero]
  | [], n + 1, h => by simp at h
  | x :: xs, n + 1, h => by
    rw [List.insertIdx_succ_cons]
    exact ((insertIdx_perm_cons a xs n (by simpa using h)).cons x).trans
      (List.Perm.swap a x xs)

/-- Consing the element at an index onto the index-erased list is a
permutation of the original list. -/
theorem cons_eraseIdx_perm :
    ∀ (l : List α) (d : Nat) (item : α), l[d]? = some item →
      (item :: l.eraseIdx d).Perm l
  | [], d, item, h => by simp at h
  | x :: xs, 0, item, h => by
    simp only [List.getElem?_cons_zero, Option.some.injEq] at h
    simp [h]
  | x :: xs, d + 1, item, h => by
    simp only [List.getElem?_cons_succ] at h
    exact (List.Perm.swap x item (xs.eraseIdx d)).trans
      ((cons_eraseIdx_perm xs d item h).cons x)

/-- The inserted element sits at the insertion index. -/
theorem getElem?_insertIdx_self :
    ∀ (l : List α) (n : Nat) (a : α), n ≤ l.length → (l.insertIdx n a)[n]? = some a
  | l, 0, a, _ => by simp [List.insertIdx_zero]
  | [], n + 1, a, h => by simp at h
  | x :: xs, n + 1, a, h => by
    rw [List.insertIdx_succ_cons]
    simpa using getElem?_insertIdx_self xs n a (by simpa using h)

/-- Positions below the insertion index are unchanged. -/
theorem getElem?_insertIdx_lt :
    ∀ (l : List α) (n k : Nat) (a : α), k < n → (l.insertIdx n a)[k]? = l[k]?
  | _, 0, k, _, h => by omega
  | [], n + 1, k, a, _ => by rw [List.insertIdx_succ_nil]
  | x :: xs, n + 1, 0, a, _ => by rw [List.insertIdx_succ_cons]; simp
  | x :: xs, n + 1, k + 1, a, h => by
    rw [List.insertIdx_succ_cons]
    simpa using getElem?_insertIdx_lt xs n k a (by omega)

/-- Positions at or above the insertion index shift up by one. -/
theorem getElem?_insertIdx_succ :
    ∀ (l : List α) (n k : Nat) (a : α), n ≤ k → k ≤ l.length →
      (l.insertIdx n a)[k + 1]? = l[k]?
  | l, 0, k, a, _, _ => by simp [List.insertIdx_zero]
  | [], n + 1, k, a, hn, hk => by simp at hk; omega
  | x :: xs, n + 1, k + 1, a, hn, hk => by
    rw [List.insertIdx_succ_cons]
    simpa using getElem?_insertIdx_succ xs n k a (by omega) (by simpa using hk)

/-- Positions below the erased index are unchanged. -/
theorem getElem?_eraseIdx_lt :
    ∀ (l : List α) (d k : Nat), k < d → (l.eraseIdx d)[k]? = l[k]?
  | [], d, k, _ => rfl
  | x :: xs, d + 1, 0, _ => by simp [List.eraseIdx_cons_succ]
  | x :: xs, d + 1, k + 1, h => by
    simp only [List.eraseIdx_cons_succ, List.getElem?_cons_succ]
    exact getElem?_eraseIdx_lt xs d k (by omega)

/-- Positions at or above the erased index shift down by one. -/
theorem getElem?_eraseIdx_ge :
    ∀ (l : List α) (d k : Nat), d ≤ k → (l.eraseIdx d)[k]? = l[k + 1]?
  | [], d, k, _ => by simp
  | x :: xs, 0, k, _ => by simp [List.eraseIdx_cons_zero]
  | x :: xs, d + 1, k + 1, h => by
    simp only [List.eraseIdx_cons_succ, List.getElem?_cons_succ]
    exact getElem?_eraseIdx_ge xs d k (by omega)

end ListLemmas

/-- A state for exercising drag relocation: three entries, `imgA` dragged. -/
def stDrag : AppState :=
  { initState with
      selectedImages := [imgA, imgB, imgC]
      draggedImage := some "ida" }

/-- Drag relocation always permutes the collection. -/
theorem handleDropImage_perm (s : AppState) (target : String) :
    (handleDropImage target s).selectedImages.Perm s.selectedImages := by
  unfold handleDropImage
  cases hDrag : s.draggedImage with
  | none => exact List.Perm.refl _
  | some src =>
    dsimp only
    by_cases hst : src = target
    · rw [if_pos hst]
    · rw [if_neg hst]
      dsimp only
      cases hd : s.selectedImages.findIdx? (fun img => img.id = src) with
      | none => exact List.Perm.refl _
      | some d =>
        cases ht : s.selectedImages.findIdx? (fun img => img.id = target) with
        | none => exact List.Perm.refl _
        | some t =>
          dsimp only
          cases hitem : s.selectedImages[d]? with
          | none => exact List.Perm.refl _
          | some item =>
            dsimp only
            have hdlen : d < s.selectedImages.length :=
              (List.findIdx?_eq_some_iff_findIdx_eq.mp hd).1
            have htlen : t < s.selectedImages.length :=
              (List.findIdx?_eq_some_iff_findIdx_eq.mp ht).1
            have helen : (s.selectedImages.eraseIdx d).length + 1
                = s.selectedImages.length := List.length_eraseIdx_add_one hdlen
            exact (insertIdx_perm_cons item _ t (by omega)).trans
              (cons_eraseIdx_perm s.selectedImages d item hitem)

/-- Claim C4 (amended): drag relocation is a no-op on the collection when no
entry is being dragged, when source and target coincide, or when either id is
absent; it always preserves the multiset of ids and the length; and when
source and target are distinct and present, the source is removed and
reinserted at the target's original index — landing at that index, immediately
before the target when the source originally followed it, and immediately
after the target when the source originally preceded it. -/
theorem c4_drag_relocation (s : AppState) (target : String) :
    ((s.draggedImage = none →
        (handleDropImage target s).selectedImages = s.selectedImages)
      ∧ (s.draggedImage = some target →
        (handleDropImage target s).selectedImages = s.selectedImages)
      ∧ (∀ src, s.draggedImage = some src →
        (s.selectedImages.findIdx? (fun img => img.id = src) = none
          ∨ s.selectedImages.findIdx? (fun img => img.id = target) = none) →
        (handleDropImage target s).selectedImages = s.selectedImages))
    ∧ (handleDropImage target s).selectedImages.Perm s.selectedImages
    ∧ ((handleDropImage target s).selectedImages.map (·.id)).Perm
        (s.selectedImages.map (·.id))
    ∧ (handleDropImage target s).selectedImages.length = s.selectedImages.length
    ∧ (∀ src d t item, s.draggedImage = some src → ¬ src = target →
        s.selectedImages.findIdx? (fun img => img.id = src) = some d →
        s.selectedImages.findIdx? (fun img => img.id = target) = some t →
        s.selectedImages[d]? = some item →
        (handleDropImage target s).selectedImages
            = (s.selectedImages.eraseIdx d).insertIdx t item
        ∧ (handleDropImage target s).selectedImages[t]? = some item
        ∧ (t < d →
            (handleDropImage target s).selectedImages[t + 1]? = s.selectedImages[t]?)
        ∧ (d < t →
            (handleDropImage target s).selectedImages[t - 1]? = s.selectedImages[t]?)) := by
  have hperm := handleDropImage_perm s target
  refine ⟨⟨?_, ?_, ?_⟩, hperm, hperm.map _, hperm.length_eq, ?_⟩
  · intro h; simp [handleDropImage, h]
  · intro h; simp [handleDropImage, h]
  · rintro src h (hd | ht)
    · by_cases hst : src = target
      · simp [handleDropImage, h, hst]
      · simp [handleDropImage, h, if_neg hst, hd]
    · by_cases hst : src = target
      · simp [handleDropImage, h, hst]
      · simp only [handleDropImage, h, if_neg hst]
        cases hd : s.selectedImages.findIdx? (fun img => img.id = src) <;> simp [hd, ht]
  · intro src d t item h hst hd ht hitem
    have hdlen : d < s.selectedImages.length :=
      (List.findIdx?_eq_some_iff_findIdx_eq.mp hd).1
    have htlen : t < s.selectedImages.length :=
      (List.findIdx?_eq_some_iff_findIdx_eq.mp ht).1
    have helen : (s.selectedImages.eraseIdx d).length + 1 = s.selectedImages.length :=
      List.length_eraseIdx_add_one hdlen
    have hres : (handleDropImage target s).selectedImages
        = (s.selectedImages.eraseIdx d).insertIdx t item := by
      simp [handleDropImage, h, if_neg hst, hd, ht, hitem]
    refine ⟨hres, ?_, ?_, ?_⟩
    · rw [hres]
      exact getElem?_insertIdx_self _ t item (by omega)
    · intro htd
      rw [hres, getElem?_insertIdx_succ _ t t item le_rfl (by omega),
        getElem?_eraseIdx_lt _ d t htd]
    · intro hdt
      rw [hres, getElem?_insertIdx_lt _ t (t - 1) item (by omega),
        getElem?_eraseIdx_ge _ d (t - 1) (by omega)]
      congr 1
      omega

/-- Witness for C4 at `stDrag`: dragging `imgA` (index 0) onto `imgC`
(index 2) yields the placement facts of the amended claim. -/
theorem c4_drag_relocation_witness :
    (handleDropImage "idc" stDrag).selectedImages
        = (stDrag.selectedImages.eraseIdx 0).insertIdx 2 imgA
      ∧ (handleDropImage "idc" stDrag).selectedImages[2]? = some imgA
      ∧ (2 < 0 →
          (handleDropImage "idc" stDrag).selectedImages[3]? = stDrag.selectedImages[2]?)
      ∧ (0 < 2 →
          (handleDropImage "idc" stDrag).selectedImages[1]? = stDrag.selectedImages[2]?) :=
  (c4_drag_relocation stDrag "idc").2.2.2.2 "ida" 0 2 imgA rfl
    (by decide) (by decide) (by decide) (by decide)

/-- Claim C4 as stated is false: dragging the first entry onto the last one
produces `[imgB, imgC, imgA]` — the source lands immediately after the
target, not immediately before it. -/
theorem c4_counterexample :
    (handleDropImage "idc" stDrag).selectedImages = [imgB, imgC, imgA]
    ∧ ¬ ((handleDropImage "idc" stDrag).selectedImages.findIdx
          (fun img => img.id == "ida") + 1
        = (handleDropImage "idc" stDrag).selectedImages.findIdx
          (fun img => img.id == "idc")) := by
  decide

/-- Consing an element displaced by `set` onto the updated list permutes
consing the new element onto the original. -/
theorem cons_set_perm {α : Type*} :
    ∀ (l : List α) (m : Nat) (a b : α), l[m]? = some b →
      (b :: l.set m a).Perm (a :: l)
  | [], m, a, b, h => by simp at h
  | x :: t, 0, a, b, h => by
    simp only [List.getElem?_cons_zero, Option.some.injEq] at h
    subst h
    rw [List.set_cons_zero]
    exact List.Perm.swap a x t
  | x :: t, m + 1, a, b, h => by
    simp only [List.getElem?_cons_succ] at h
    rw [List.set_cons_succ]
    exact ((List.Perm.swap x b (t.set m a)).trans
      ((cons_set_perm t m a b h).cons x)).trans (List.Perm.swap a x t)

/-- The double-`set` swap of two in-range positions permutes the list. -/
theorem set_set_perm {α : Type*} :
    ∀ (l : List α) (i j : Nat) (a b : α), l[i]? = some a → l[j]? = some b →
      ((l.set i b).set j a).Perm l
  | [], i, j, a, b, hi, hj => by simp at hi
  | x :: t, 0, 0, a, b, hi, hj => by
    simp only [List.getElem?_cons_zero, Option.some.injEq] at hi hj
    subst hi
    rw [List.set_cons_zero, List.set_cons_zero]
  | x :: t, 0, m + 1, a, b, hi, hj => by
    simp only [List.getElem?_cons_zero, Option.some.injEq] at hi
    simp only [List.getElem?_cons_succ] at hj
    subst hi
    rw [List.set_cons_zero, List.set_cons_succ]
    exact cons_set_perm t m x b hj
  | x :: t, n + 1, 0, a, b, hi, hj => by
    simp only [List.getElem?_cons_zero, Option.some.injEq] at hj
    simp only [List.getElem?_cons_succ] at hi
    subst hj
    rw [List.set_cons_succ, List.set_cons_zero]
    exact cons_set_perm t n x a hi
  | x :: t, n + 1, m + 1, a, b, hi, hj => by
    simp only [List.getElem?_cons_succ] at hi hj
    rw [List.set_cons_succ, List.set_cons_succ]
    exact (set_set_perm t n m a b hi hj).cons x

/-- `swapIdx` permutes the collection. -/
theorem swapIdx_perm (l : List ImageData) (i j : Nat) : (swapIdx l i j).Perm l := by
  unfold swapIdx
  cases hi : l[i]? with
  | none => exact List.Perm.refl _
  | some a =>
    cases hj : l[j]? with
    | none => exact List.Perm.refl _
    | some b => exact set_set_perm l i j a b hi hj

/-- `moveImage` permutes the collection. -/
theorem moveImage_perm (index : Nat) (up : Bool) (s : AppState) :
    (moveImage index up s).selectedImages.Perm s.selectedImages := by
  unfold moveImage
  split
  · exact List.Perm.refl _
  · exact swapIdx_perm _ _ _

/-- The ids assigned by one intake are the stream values at the consumed
positions, in order. -/
theorem intake_ids_eq_range' (mkUrl : File → String) (rand : Nat → String) :
    ∀ (l : List File) (n : Nat),
      ((l.mapIdx fun k f => ImageData.mk f (mkUrl f) (rand (n + k))).map (·.id))
        = (List.range' n l.length).map rand
  | [], _ => rfl
  | f :: t, n => by
    rw [List.mapIdx_cons, List.map_cons, List.length_cons, List.range'_succ,
      List.map_cons, Nat.add_zero]
    congr 1
    have harg : (fun (i : Nat) (f : File) =>
          ImageData.mk f (mkUrl f) (rand (n + (i + 1))))
        = fun (i : Nat) (f : File) => ImageData.mk f (mkUrl f) (rand (n + 1 + i)) := by
      funext i f
      rw [show n + (i + 1) = n + 1 + i by omega]
    rw [harg, intake_ids_eq_range' mkUrl rand t (n + 1)]

/-- The id-accounting invariant: the ghost history is exactly the consumed
stream positions in order, and the ids currently in the collection form a
sub-multiset of that history. -/
def IdInv (rand : Nat → String) (s : AppState) : Prop :=
  s.createdIds = (List.range s.nextRand).map rand
  ∧ (s.selectedImages.map (·.id)).Subperm s.createdIds

/-- Drag relocation never touches the ghost id history. -/
theorem handleDropImage_createdIds (target : String) (s : AppState) :
    (handleDropImage target s).createdIds = s.createdIds := by
  unfold handleDropImage
  cases s.draggedImage with
  | none => rfl
  | some src =>
    dsimp only
    split <;> rfl

/-- Drag relocation never consumes the id stream. -/
theorem handleDropImage_nextRand (target : String) (s : AppState) :
    (handleDropImage target s).nextRand = s.nextRand := by
  unfold handleDropImage
  cases s.draggedImage with
  | none => rfl
  | some src =>
    dsimp only
    split <;> rfl

/-- A directional move never touches the ghost id history. -/
theorem moveImage_createdIds (index : Nat) (up : Bool) (s : AppState) :
    (moveImage index up s).createdIds = s.createdIds := by
  unfold moveImage
  split <;> rfl

/-- A directional move never consumes the id stream. -/
theorem moveImage_nextRand (index : Nat) (up : Bool) (s : AppState) :
    (moveImage index up s).nextRand = s.nextRand := by
  unfold moveImage
  split <;> rfl

/-- Every operation preserves the id-accounting invariant. -/
theorem IdInv_step (rand : Nat → String) (mkUrl : File → String)
    (e : Event) (s : AppState) (h : IdInv rand s) :
    IdInv rand (stepEvent rand mkUrl e s) := by
  obtain ⟨hcr, hsub⟩ := h
  cases e with
  | intake files =>
    cases files with
    | none => exact ⟨hcr, hsub⟩
    | some fs =>
      dsimp only [stepEvent, handleFiles]
      split
      · exact ⟨hcr, hsub⟩
      · split
        · exact ⟨hcr, hsub⟩
        · constructor
          · dsimp only
            rw [hcr, intake_ids_eq_range' mkUrl rand, List.range'_eq_map_range,
              List.range_add, List.map_append, List.map_map]
          · rw [List.map_append]
            obtain ⟨w, hperm, hsl⟩ := hsub
            exact ⟨w ++ ((fs.filter fun f => acceptedTypes.contains f.type).mapIdx
                (fun k f => ImageData.mk f (mkUrl f) (rand (s.nextRand + k)))).map (·.id),
              hperm.append_right _, hsl.append (List.Sublist.refl _)⟩
  | dragStart imageId => exact ⟨hcr, hsub⟩
  | dropImage targetImageId =>
    dsimp only [stepEvent]
    refine ⟨?_, (((handleDropImage_perm s targetImageId).map (·.id)).subperm).trans ?_⟩
    · rw [handleDropImage_createdIds, handleDropImage_nextRand, hcr]
    · rw [handleDropImage_createdIds]
      exact hsub
  | move index up =>
    dsimp only [stepEvent]
    refine ⟨?_, (((moveImage_perm index up s).map (·.id)).subperm).trans ?_⟩
    · rw [moveImage_createdIds, moveImage_nextRand, hcr]
    · rw [moveImage_createdIds]
      exact hsub
  | remove id =>
    refine ⟨hcr, List.Subperm.trans ?_ hsub⟩
    exact ((List.filter_sublist s.selectedImages).map (·.id)).subperm
  | clear => exact ⟨hcr, List.nil_subperm⟩

/-- The invariant holds at every reachable state. -/
theorem IdInv_runEvents (rand : Nat → String) (mkUrl : File → String) :
    ∀ (evs : List Event) (s : AppState), IdInv rand s →
      IdInv rand (runEvents rand mkUrl evs s)
  | [], _, h => h
  | e :: t, s, h =>
    IdInv_runEvents rand mkUrl t (stepEvent rand mkUrl e s)
      (IdInv_step rand mkUrl e s h)

/-- Claim C3 (amended): provided the random id stream never repeats a value
(injectivity), every id ever assigned during the collection's lifetime is
distinct — so no two entries ever present share an id and no id is reused
after deletion — and the ids currently present are pairwise distinct and all
drawn from that history. -/
theorem c3_lifetime_id_uniqueness (rand : Nat → String) (mkUrl : File → String)
    (hinj : Function.Injective rand) (evs : List Event) :
    ((runEvents rand mkUrl evs initState).createdIds).Nodup
    ∧ ((runEvents rand mkUrl evs initState).selectedImages.map (·.id)).Nodup
    ∧ ((runEvents rand mkUrl evs initState).selectedImages.map (·.id)).Subperm
        (runEvents rand mkUrl evs initState).createdIds := by
  obtain ⟨hcr, hsub⟩ := IdInv_runEvents rand mkUrl evs initState
    ⟨rfl, List.nil_subperm⟩
  have hnodup : ((runEvents rand mkUrl evs initState).createdIds).Nodup := by
    rw [hcr]
    exact (List.nodup_range _).map hinj
  refine ⟨hnodup, ?_, hsub⟩
  obtain ⟨w, hperm, hsl⟩ := hsub
  exact (hperm.nodup_iff).mp (hsl.nodup hnodup)

/-- A degenerate id stream that always returns the same string, as
`Math.random` may. -/
def randConst : Nat → String := fun _ => "x"

/-- Claim C3 as stated is false: with a colliding id source, two successive
intakes leave two simultaneously present entries sharing the id `"x"`. -/
theorem c3_counterexample :
    ((runEvents randConst mkUrl0 [.intake (some [fileA]), .intake (some [fileB])]
        initState).selectedImages.map (·.id)) = ["x", "x"]
    ∧ ¬ ((runEvents randConst mkUrl0 [.intake (some [fileA]), .intake (some [fileB])]
        initState).selectedImages.map (·.id)).Nodup := by
  decide

/-- An injective id stream. -/
def randRep : Nat → String := fun n => String.mk (List.replicate n 'a')

/-- `randRep` is injective: its output length determines the input. -/
theorem randRep_injective : Function.Injective randRep := by
  intro m n h
  have hlen : (randRep m).data.length = (randRep n).data.length := by rw [h]
  simpa [randRep] using hlen

/-- Witness for C3 with the injective stream `randRep` and one intake. -/
theorem c3_lifetime_id_uniqueness_witness :
    ((runEvents randRep mkUrl0 [.intake (some [fileA, fileB])] initState).createdIds).Nodup
    ∧ ((runEvents randRep mkUrl0 [.intake (some [fileA, fileB])]
          initState).selectedImages.map (·.id)).Nodup
    ∧ ((runEvents randRep mkUrl0 [.intake (some [fileA, fileB])]
          initState).selectedImages.map (·.id)).Subperm
        (runEvents randRep mkUrl0 [.intake (some [fileA, fileB])] initState).createdIds :=
  c3_lifetime_id_uniqueness randRep mkUrl0 randRep_injective
    [.intake (some [fileA, fileB])]

/-! ### Equivalence of the page-selection automaton with the spec grammar -/

/-- Running over a concatenation runs the pieces in sequence. -/
theorem regexRun_append (st : RState) (a b : List Char) :
    regexRun st (a ++ b) = regexRun (regexRun st a) b :=
  List.foldl_append _ _ _ _

/-- Digits keep the automaton in `s1`. -/
theorem regexRun_s1_digits :
    ∀ ds : List Char, (∀ c ∈ ds, c.isDigit) → regexRun .s1 ds = .s1
  | [], _ => rfl
  | c :: t, h => by
    have hc : c.isDigit := h c (by simp)
    simp only [regexRun, List.foldl_cons]
    rw [show regexStep .s1 c = .s1 by simp [regexStep, hc]]
    exact regexRun_s1_digits t (fun x hx => h x (by simp [hx]))

/-- Digits keep the automaton in `s3`. -/
theorem regexRun_s3_digits :
    ∀ ds : List Char, (∀ c ∈ ds, c.isDigit) → regexRun .s3 ds = .s3
  | [], _ => rfl
  | c :: t, h => by
    have hc : c.isDigit := h c (by simp)
    simp only [regexRun, List.foldl_cons]
    rw [show regexStep .s3 c = .s3 by simp [regexStep, hc]]
    exact regexRun_s3_digits t (fun x hx => h x (by simp [hx]))

/-- A `NUMBER` drives the automaton from `s0` to `s1`. -/
theorem regexRun_s0_number (a : List Char) (h : IsNumber a) :
    regexRun .s0 a = .s1 := by
  obtain ⟨hne, hdig⟩ := h
  obtain ⟨c, t, rfl⟩ := List.exists_cons_of_ne_nil hne
  have hc : c.isDigit := hdig c (by simp)
  simp only [regexRun, List.foldl_cons]
  rw [show regexStep .s0 c = .s1 by simp [regexStep, hc]]
  exact regexRun_s1_digits t (fun x hx => hdig x (by simp [hx]))

/-- A `PAGE` drives the automaton from `s0` to an accepting state. -/
theorem regexRun_s0_page (p : List Char) (h : IsPage p) :
    regexRun .s0 p = .s1 ∨ regexRun .s0 p = .s3 := by
  cases h with
  | num hn => exact Or.inl (regexRun_s0_number _ hn)
  | range ha hb =>
    right
    rename_i a b
    rw [regexRun_append, regexRun_s0_number a ha]
    obtain ⟨hbne, hbdig⟩ := hb
    obtain ⟨c, t, rfl⟩ := List.exists_cons_of_ne_nil hbne
    have hc : c.isDigit := hbdig c (by simp)
    simp only [regexRun, List.foldl_cons]
    rw [show regexStep .s1 '-' = .s2 by decide,
      show regexStep .s2 c = .s3 by simp [regexStep, hc]]
    exact regexRun_s3_digits t (fun x hx => hbdig x (by simp [hx]))

/-- An optional already-recognised `PAGESET ','` prefix of the consumed
input. -/
def PrePS (pre : List Char) : Prop :=
  pre = [] ∨ ∃ r, IsPageSet r ∧ pre = r ++ [',']

/-- Appending a `NUMBER` to a recognised prefix yields a `PAGESET`. -/
theorem prePS_number {pre d : List Char} (hp : PrePS pre) (hd : IsNumber d) :
    IsPageSet (pre ++ d) := by
  cases hp with
  | inl h => rw [h, List.nil_append]; exact .one (.num hd)
  | inr h =>
    obtain ⟨r, hr, rfl⟩ := h
    rw [List.append_assoc]
    exact .more hr (.num hd)

/-- Appending a `NUMBER '-' NUMBER` page to a recognised prefix yields a
`PAGESET`. -/
theorem prePS_range {pre d b : List Char} (hp : PrePS pre) (hd : IsNumber d)
    (hb : IsNumber b) : IsPageSet (pre ++ d ++ '-' :: b) := by
  cases hp with
  | inl h => rw [h, List.nil_append]; exact .one (.range hd hb)
  | inr h =>
    obtain ⟨r, hr, rfl⟩ := h
    rw [List.append_assoc, List.append_assoc]
    exact .more hr (.range hd hb)

/-- What having consumed `cs` and sitting in a given state means. -/
def RInv : RState → List Char → Prop
  | .s0, cs => PrePS cs
  | .s1, cs => ∃ pre d, PrePS pre ∧ IsNumber d ∧ cs = pre ++ d
  | .s2, cs => ∃ pre d, PrePS pre ∧ IsNumber d ∧ cs = pre ++ d ++ ['-']
  | .s3, cs => ∃ pre d b, PrePS pre ∧ IsNumber d ∧ IsNumber b ∧ cs = pre ++ d ++ '-' :: b
  | .dead, _ => True

/-- One automaton step preserves the state meaning. -/
theorem RInv_step (st : RState) (cs : List Char) (c : Char) (h : RInv st cs) :
    RInv (regexStep st c) (cs ++ [c]) := by
  cases st with
  | dead => trivial
  | s0 =>
    by_cases hc : c.isDigit
    · rw [show regexStep .s0 c = .s1 by simp [regexStep, hc]]
      exact ⟨cs, [c], h, ⟨by simp, by simpa using hc⟩, rfl⟩
    · rw [show regexStep .s0 c = .dead by simp [regexStep, hc]]
      trivial
  | s1 =>
    obtain ⟨pre, d, hp, hd, rfl⟩ := h
    by_cases hc : c.isDigit
    · rw [show regexStep .s1 c = .s1 by simp [regexStep, hc]]
      refine ⟨pre, d ++ [c], hp, ⟨by simp, ?_⟩, by rw [List.append_assoc]⟩
      intro x hx
      rcases List.mem_append.mp hx with hx | hx
      · exact hd.2 x hx
      · rw [List.mem_singleton.mp hx]; exact hc
    · by_cases hdash : c = '-'
      · subst hdash
        rw [show regexStep .s1 '-' = .s2 by decide]
        exact ⟨pre, d, hp, hd, rfl⟩
      · by_cases hcomma : c = ','
        · subst hcomma
          rw [show regexStep .s1 ',' = .s0 by decide]
          exact Or.inr ⟨pre ++ d, prePS_number hp hd, rfl⟩
        · rw [show regexStep .s1 c = .dead by simp [regexStep, hc, hdash, hcomma]]
          trivial
  | s2 =>
    obtain ⟨pre, d, hp, hd, rfl⟩ := h
    by_cases hc : c.isDigit
    · rw [show regexStep .s2 c = .s3 by simp [regexStep, hc]]
      exact ⟨pre, d, [c], hp, hd, ⟨by simp, by simpa using hc⟩, by simp⟩
    · rw [show regexStep .s2 c = .dead by simp [regexStep, hc]]
      trivial
  | s3 =>
    obtain ⟨pre, d, b, hp, hd, hb, rfl⟩ := h
    by_cases hc : c.isDigit
    · rw [show regexStep .s3 c = .s3 by simp [regexStep, hc]]
      refine ⟨pre, d, b ++ [c], hp, hd, ⟨by simp, ?_⟩, ?_⟩
      · intro x hx
        rcases List.mem_append.mp hx with hx | hx
        · exact hb.2 x hx
        · rw [List.mem_singleton.mp hx]; exact hc
      · rw [List.append_assoc]; rfl
    · by_cases hcomma : c = ','
      · subst hcomma
        rw [show regexStep .s3 ',' = .s0 by decide]
        exact Or.inr ⟨pre ++ d ++ '-' :: b, prePS_range hp hd hb, rfl⟩
      · rw [show regexStep .s3 c = .dead by simp [regexStep, hc, hcomma]]
        trivial

/-- The state meaning holds along any run from `s0`. -/
theorem RInv_run (cs : List Char) : RInv (regexRun .s0 cs) cs := by
  induction cs using List.reverseRecOn with
  | nil => exact Or.inl rfl
  | append_singleton xs c ih =>
    rw [regexRun_append]
    simp only [regexRun, List.foldl_cons, List.foldl_nil]
    exact RInv_step _ xs c ih

/-- The automaton accepts exactly the strings of the spec grammar
`PAGESET := PAGE (',' PAGE)*`, `PAGE := NUMBER ('-' NUMBER)?`. -/
theorem regexAccepts_iff_isPageSet (cs : List Char) :
    regexAccepts cs = true ↔ IsPageSet cs := by
  have hacc : regexAccepts cs = true
      ↔ (regexRun .s0 cs = .s1 ∨ regexRun .s0 cs = .s3) := by
    simp [regexAccepts]
  rw [hacc]
  constructor
  · rintro (h1 | h3)
    · have hinv := RInv_run cs
      rw [h1] at hinv
      obtain ⟨pre, d, hp, hd, rfl⟩ := hinv
      exact prePS_number hp hd
    · have hinv := RInv_run cs
      rw [h3] at hinv
      obtain ⟨pre, d, b, hp, hd, hb, rfl⟩ := hinv
      exact prePS_range hp hd hb
  · intro h
    clear hacc
    induction h with
    | one hp => exact regexRun_s0_page _ hp
    | more hr hp ih =>
      rw [regexRun_append]
      rcases ih with h1 | h3
      · rw [h1]
        simp only [regexRun, List.foldl_cons]
        rw [show regexStep .s1 ',' = .s0 by decide]
        exact regexRun_s0_page _ hp
      · rw [h3]
        simp only [regexRun, List.foldl_cons]
        rw [show regexStep .s3 ',' = .s0 by decide]
        exact regexRun_s0_page _ hp

/-- An all-whitespace page string strips to the empty string. -/
theorem stripWs_eq_nil_of_trimWs_eq_nil (cs : List Char) (h : trimWs cs = []) :
    stripWs cs = [] := by
  unfold trimWs at h
  rw [List.reverse_eq_nil_iff, List.dropWhile_eq_nil_iff] at h
  have hall : ∀ x ∈ cs, x.isWhitespace := by
    intro x hx
    rw [← List.takeWhile_append_dropWhile (p := Char.isWhitespace) (l := cs)] at hx
    rcases List.mem_append.mp hx with hx | hx
    · exact List.mem_takeWhile_imp hx
    · exact h x (List.mem_reverse.mpr hx)
  unfold stripWs
  rw [List.filter_eq_nil_iff]
  intro x hx
  simpa using hall x hx

/-- The empty string is not a `PAGESET`. -/
theorem not_isPageSet_nil : ¬ IsPageSet ([] : List Char) := by
  intro h
  have := (regexAccepts_iff_isPageSet []).mpr h
  simp [regexAccepts, regexRun] at this

/-- Claim C9 (amended): the split tool's page-selection validation accepts a
string exactly when the string with all whitespace removed matches the grammar
`PAGESET := PAGE (',' PAGE)*`, `PAGE := NUMBER ('-' NUMBER)?`; in particular
`"1,3-5,8"` is accepted while `"1,,3"` and `"abc"` are rejected with a
validation error before any request is attempted. -/
theorem c9_pageset_validation :
    (∀ pages : List Char, validatePages pages = none ↔ IsPageSet (stripWs pages))
    ∧ validatePages "1,3-5,8".toList = none
    ∧ validatePages "1,,3".toList = some .badFormat
    ∧ validatePages "abc".toList = some .badFormat := by
  refine ⟨?_, by decide, by decide, by decide⟩
  intro pages
  unfold validatePages
  by_cases htrim : trimWs pages = []
  · rw [if_pos htrim, stripWs_eq_nil_of_trimWs_eq_nil pages htrim]
    simp [not_isPageSet_nil]
  · rw [if_neg htrim]
    by_cases hacc : regexAccepts (stripWs pages) = true
    · rw [if_pos hacc]
      simp [(regexAccepts_iff_isPageSet _).mp hacc]
    · rw [if_neg hacc]
      have : ¬ IsPageSet (stripWs pages) :=
        fun h => hacc ((regexAccepts_iff_isPageSet _).mpr h)
      simp [this]

/-- Claim C9 as stated is false: `"1, 2"` is accepted by the validation (the
code strips whitespace before testing) although it does not match the grammar
itself. -/
theorem c9_counterexample :
    validatePages "1, 2".toList = none ∧ ¬ IsPageSet "1, 2".toList := by
  refine ⟨by decide, fun h => ?_⟩
  have := (regexAccepts_iff_isPageSet _).mpr h
  rw [show regexAccepts "1, 2".toList = false by decide] at this
  cases this

end SharpToolKit
